import Mathlib

/-!
# Verification of the `api_golang_pg_docker` user CRUD service

Shallow embedding of `src/main.go`: a Go HTTP service exposing CRUD
operations on a `users` table (Postgres).  Handlers are modelled as pure
functions from the request data and an abstract relational store to a
result that is either an HTTP response together with the updated store,
or process termination (`log.Fatal`).

Modelling notes, tied to the source:
* The store is the `users` table: a list of rows `(id, name, email)` in scan
  order plus the `SERIAL` sequence counter (`nextId`).  `CREATE TABLE ...
  id SERIAL PRIMARY KEY` makes ids positive, unique and monotonically
  assigned.
* Path ids reach SQL as text parameters compared against the integer `id`
  column; Postgres casts the parameter, and a non-integer string makes the
  statement fail (`invalid input syntax for type integer`).  This cast is
  modelled by `pgParseId`; its failure is the `DbError.invalidSyntax` outcome.
* `QueryRow(...).Scan` yields `sql.ErrNoRows` when no row matches, modelled
  by `DbError.noRows`.  `DbError.connection` stands for any other driver
  failure (never produced by the pure store, but the handlers' error
  branches are embedded faithfully and quantified over all of `DbError`).
* Go's `http.Error(w, msg, code)` is documented to set the response header
  `Content-Type: text/plain; charset=utf-8` (overwriting any previous
  value) before writing `msg`; `json.NewEncoder(w).Encode` writes the body
  without touching the header already set.  The middleware
  `jsonContentTypeMiddleware` sets `Content-Type: application/json` before
  delegating.  Responses therefore record their final content type.
  Trailing newlines emitted by `fmt.Fprintln` / `Encode` are omitted from
  modelled bodies.
-/

/-- A row of the `users` table / the decoded JSON payload (`type User struct`). -/
structure User where
  id : Int
  name : String
  email : String
deriving Repr, DecidableEq

/-- The `users` table: rows in scan order plus the `SERIAL` sequence value
that the next `INSERT ... RETURNING id` will assign. -/
structure Store where
  rows : List User
  nextId : Int
deriving Repr, DecidableEq

/-- Errors a single SQL statement can produce, as seen by the Go handlers. -/
inductive DbError where
  /-- `sql.ErrNoRows`: the single-row query matched nothing. -/
  | noRows
  /-- Postgres rejects the text path id as an integer
  (`invalid input syntax for type integer`). -/
  | invalidSyntax
  /-- Any other driver/connection failure. -/
  | connection
deriving Repr, DecidableEq

/-- Well-formedness guaranteed by `id SERIAL PRIMARY KEY`: ids are positive,
below the sequence counter, and pairwise distinct; the sequence starts at 1. -/
def Store.WF (s : Store) : Prop :=
  (∀ u ∈ s.rows, 0 < u.id ∧ u.id < s.nextId) ∧
    (s.rows.map User.id).Nodup ∧ 1 ≤ s.nextId

instance (s : Store) : Decidable s.WF := by
  unfold Store.WF; infer_instance

/-- All rows carry pairwise-distinct names. -/
def distinctNames (s : Store) : Prop := (s.rows.map User.name).Nodup

/-- All rows carry pairwise-distinct emails. -/
def distinctEmails (s : Store) : Prop := (s.rows.map User.email).Nodup

instance (s : Store) : Decidable (distinctNames s) := by
  unfold distinctNames; infer_instance

instance (s : Store) : Decidable (distinctEmails s) := by
  unfold distinctEmails; infer_instance

/-! ## Email validation (`isValidEmail`, main.go lines 208-212)

The Go code full-matches `^[a-zA-Z0-9._%+-]+@[a-zA-Z0-9.-]+\.[a-zA-Z]{2,}$`.
An anchored regex match is exactly the existence of a decomposition
`local ++ "@" ++ domain ++ "." ++ tld` with each piece in its character
class; the decomposition points are enumerated below. -/

/-- Character class `[a-zA-Z0-9._%+-]` of the regex's local part. -/
def localChar (c : Char) : Bool :=
  c.isAlpha || c.isDigit || c = '.' || c = '_' || c = '%' || c = '+' || c = '-'

/-- Character class `[a-zA-Z0-9.-]` of the regex's domain part. -/
def domainChar (c : Char) : Bool :=
  c.isAlpha || c.isDigit || c = '.' || c = '-'

/-- `[a-zA-Z0-9.-]+\.[a-zA-Z]{2,}`: some split into a non-empty domain,
a literal dot, and an alphabetic TLD of length ≥ 2. -/
def domainTldMatch (cs : List Char) : Bool :=
  (List.range (cs.length + 1)).any fun j =>
    match cs.drop j with
    | '.' :: t =>
        !(cs.take j).isEmpty && (cs.take j).all domainChar &&
          decide (2 ≤ t.length) && t.all Char.isAlpha
    | _ => false

/-- `isValidEmail` (main.go lines 208-212): anchored match of
`^[a-zA-Z0-9._%+-]+@[a-zA-Z0-9.-]+\.[a-zA-Z]{2,}$`. -/
def isValidEmail (email : String) : Bool :=
  let cs := email.data
  (List.range (cs.length + 1)).any fun i =>
    match cs.drop i with
    | '@' :: rest =>
        !(cs.take i).isEmpty && (cs.take i).all localChar && domainTldMatch rest
    | _ => false

/-! ## The SQL statements issued by the handlers -/

/-- Parse a non-empty all-digit string as a natural number. -/
def parseDigits (cs : List Char) : Option Nat :=
  if !cs.isEmpty && cs.all Char.isDigit then
    some (cs.foldl (fun a c => a * 10 + (c.toNat - 48)) 0)
  else none

/-- Postgres's cast of the text path-id parameter to `integer` when compared
with the `id` column; `none` is the cast failure that makes the whole
statement error out.  An integer literal is an optional sign followed by
digits (Postgres additionally trims surrounding whitespace, which no claim
depends on). -/
def pgParseId (s : String) : Option Int :=
  match s.data with
  | '-' :: rest => (parseDigits rest).map (fun n => -(n : Int))
  | '+' :: rest => (parseDigits rest).map (fun n => (n : Int))
  | cs => (parseDigits cs).map (fun n => (n : Int))

/-- `SELECT * FROM users WHERE id = $1` + `Scan` (getUser, line 87). -/
def queryUserById (s : Store) (idStr : String) : Except DbError User :=
  match pgParseId idStr with
  | none => .error .invalidSyntax
  | some i =>
      match s.rows.find? (fun u => u.id == i) with
      | none => .error .noRows
      | some u => .ok u

/-- `SELECT id, name, email FROM users WHERE name = $1 OR email = $2` + `Scan`
(createUser, line 114). -/
def queryUserByNameOrEmail (s : Store) (n e : String) : Except DbError User :=
  match s.rows.find? (fun u => u.name == n || u.email == e) with
  | none => .error .noRows
  | some u => .ok u

/-- `SELECT id, name, email FROM users WHERE email = $1 AND id != $2` + `Scan`
(updateUser, line 159). -/
def queryUserByEmailExceptId (s : Store) (e idStr : String) : Except DbError User :=
  match pgParseId idStr with
  | none => .error .invalidSyntax
  | some i =>
      match s.rows.find? (fun u => u.email == e && u.id != i) with
      | none => .error .noRows
      | some u => .ok u

/-- `SELECT name, email FROM users WHERE id = $1` + `Scan`
(updateUser, line 170). -/
def queryNameEmailById (s : Store) (idStr : String) : Except DbError (String × String) :=
  match pgParseId idStr with
  | none => .error .invalidSyntax
  | some i =>
      match s.rows.find? (fun u => u.id == i) with
      | none => .error .noRows
      | some u => .ok (u.name, u.email)

/-- `INSERT INTO users (name, email) VALUES ($1, $2) RETURNING id`
(createUser, line 126): appends the row with the sequence-assigned id and
returns that id. -/
def insertUser (s : Store) (n e : String) : Store × Int :=
  (⟨s.rows ++ [⟨s.nextId, n, e⟩], s.nextId + 1⟩, s.nextId)

/-- `UPDATE users SET name = $1, email = $2 WHERE id = $3`
(updateUser, line 182): rewrites every row whose id matches. -/
def execUpdate (s : Store) (n e idStr : String) : Except DbError Store :=
  match pgParseId idStr with
  | none => .error .invalidSyntax
  | some i =>
      .ok ⟨s.rows.map (fun u => if u.id == i then ⟨u.id, n, e⟩ else u), s.nextId⟩

/-- `DELETE FROM users WHERE id = $1` (deleteUser, line 197). -/
def execDelete (s : Store) (idStr : String) : Except DbError Store :=
  match pgParseId idStr with
  | none => .error .invalidSyntax
  | some i => .ok ⟨s.rows.filter (fun u => u.id != i), s.nextId⟩

/-! ## HTTP layer -/

/-- The parts of an HTTP response the spec talks about: status code, final
`Content-Type` header, body. -/
structure Response where
  status : Nat
  contentType : String
  body : String
deriving Repr, DecidableEq

/-- Outcome of handling one request sequentially against the store: a
response together with the store afterwards, or `log.Fatal` (the process
terminates without responding). -/
inductive HResult where
  | ok (resp : Response) (s : Store)
  | fatal
deriving Repr, DecidableEq

/-- Go's `net/http.Error(w, msg, code)`: sets
`Content-Type: text/plain; charset=utf-8` (overwriting the header the
middleware set) and writes `msg`. -/
def httpError (msg : String) (code : Nat) : Response :=
  { status := code, contentType := "text/plain; charset=utf-8", body := msg }

/-- A body written through `json.NewEncoder(w).Encode` after
`WriteHeader status` (or the implicit 200): the `Content-Type` header `ct`
already on the writer is kept. -/
def jsonWrite (ct : String) (status : Nat) (body : String) : Response :=
  { status := status, contentType := ct, body := body }

/-- JSON serialisation of a `User` (`json:"id" / "name" / "email"` tags). -/
def encodeUser (u : User) : String :=
  "\x7b\"id\":" ++ toString u.id ++ ",\"name\":\"" ++ u.name ++
    "\",\"email\":\"" ++ u.email ++ "\"\x7d"

/-- JSON serialisation of a list of users. -/
def encodeUsers (l : List User) : String :=
  "[" ++ String.intercalate "," (l.map encodeUser) ++ "]"

/-! ## Handlers (main.go lines 54-205)

Each handler takes the `Content-Type` value `ct` already set on the
response writer by the middleware, the request data, and the store. -/

/-- `getUsers` (lines 55-78): `SELECT * FROM users`, encode all rows.
The pure store's scan never fails, so the `log.Fatal` branches on query,
`Scan` and `rows.Err()` are unreachable here. -/
def getUsers (ct : String) (s : Store) : HResult :=
  .ok (jsonWrite ct 200 (encodeUsers s.rows)) s

/-- `getUser` (lines 81-95): single-row lookup by path id; ANY `Scan` error,
including `sql.ErrNoRows`, hits `log.Fatal` (line 90). -/
def getUser (ct : String) (idStr : String) (s : Store) : HResult :=
  match queryUserById s idStr with
  | .error _ => .fatal
  | .ok u => .ok (jsonWrite ct 200 (encodeUser u)) s

/-- `createUser` (lines 98-137).  `body = none` models a payload
`json.Decode` rejects.  The insert itself cannot fail in the pure store, so
the 500 "Error creating user" branch (lines 127-131) is unreachable. -/
def createUser (ct : String) (body : Option User) (s : Store) : HResult :=
  match body with
  | none => .ok (httpError "Invalid request payload" 400) s
  | some u =>
    if u.name == "" || !isValidEmail u.email then
      .ok (httpError "Invalid input: Name is required and Email must be valid" 400) s
    else
      match queryUserByNameOrEmail s u.name u.email with
      | .error .noRows =>
          -- Scan left existingUser zero-valued: ID = 0, no conflict.
          let (s', newId) := insertUser s u.name u.email
          .ok (jsonWrite ct 201 (encodeUser ⟨newId, u.name, u.email⟩)) s'
      | .error _ => .ok (httpError "Error checking for existing user" 500) s
      | .ok ex =>
          if ex.id != 0 then
            .ok (httpError "User with the same name or email already exists" 409) s
          else
            let (s', newId) := insertUser s u.name u.email
            .ok (jsonWrite ct 201 (encodeUser ⟨newId, u.name, u.email⟩)) s'

/-- `updateUser` steps 4-7 (lines 168-188), given the result of the
`SELECT name, email ... WHERE id = $1` fetch: ANY fetch error — not only
`sql.ErrNoRows` — takes the 404 branch (lines 171-174); then the no-change
check; then the `UPDATE`, whose failure is `log.Fatal` (line 184).  The
response echoes the decoded body `u` including its `id` field (line 187). -/
def updateFetchStep (ct idStr : String) (u : User) (s : Store)
    (fetchRes : Except DbError (String × String)) : HResult :=
  match fetchRes with
  | .error _ => .ok (httpError "User not found" 404) s
  | .ok (n, e) =>
    if n == u.name && e == u.email then
      .ok (httpError "No changes detected" 400) s
    else
      match execUpdate s u.name u.email idStr with
      | .error _ => .fatal
      | .ok s' => .ok (jsonWrite ct 200 (encodeUser u)) s'

/-- `updateUser` step 3 (lines 157-166), given the result of the
email-uniqueness query: a non-`ErrNoRows` error is `log.Fatal` (line 161);
a found row with non-zero id is the 409 conflict. -/
def updateConflictStep (ct idStr : String) (u : User) (s : Store)
    (res : Except DbError User) : HResult :=
  match res with
  | .error .noRows => updateFetchStep ct idStr u s (queryNameEmailById s idStr)
  | .error _ => .fatal
  | .ok ex =>
      if ex.id != 0 then
        .ok (httpError "Email already in use by another user" 409) s
      else updateFetchStep ct idStr u s (queryNameEmailById s idStr)

/-- `updateUser` (lines 140-189): decode, require both fields non-empty,
then the step chain above. -/
def updateUser (ct idStr : String) (body : Option User) (s : Store) : HResult :=
  match body with
  | none => .ok (httpError "Invalid request payload" 400) s
  | some u =>
    if u.name == "" || u.email == "" then
      .ok (httpError "Name and Email are required" 400) s
    else updateConflictStep ct idStr u s (queryUserByEmailExceptId s u.email idStr)

/-- `deleteUser` (lines 192-205): delete by path id (no existence check,
affected-row count ignored); statement failure is `log.Fatal` (line 200);
otherwise `Encode("User deleted")`. -/
def deleteUser (ct : String) (idStr : String) (s : Store) : HResult :=
  match execDelete s idStr with
  | .error _ => .fatal
  | .ok s' => .ok (jsonWrite ct 200 "\"User deleted\"") s'

/-! ## Router and middleware (main.go lines 36-52) -/

/-- A routed request: method + path (with the `{id}` segment as the raw
string mux extracts) + decoded body for POST/PUT (`none` = malformed JSON). -/
inductive Request where
  | listUsers
  | showUser (idStr : String)
  | create (body : Option User)
  | update (idStr : String) (body : Option User)
  | remove (idStr : String)
deriving Repr, DecidableEq

/-- The mux dispatch (lines 37-41): hands the request to the matching
handler, passing along the content type already set on the writer. -/
def route (ct : String) (req : Request) (s : Store) : HResult :=
  match req with
  | .listUsers => getUsers ct s
  | .showUser idStr => getUser ct idStr s
  | .create body => createUser ct body s
  | .update idStr body => updateUser ct idStr body s
  | .remove idStr => deleteUser ct idStr s

/-- `jsonContentTypeMiddleware` (lines 47-52): unconditionally sets
`Content-Type: application/json` on the writer, then delegates. -/
def jsonContentTypeMiddleware (next : String → Request → Store → HResult) :
    Request → Store → HResult :=
  fun req s => next "application/json" req s

/-- The whole service as wired in `main` (line 44): middleware around the
router. -/
def app : Request → Store → HResult :=
  jsonContentTypeMiddleware route

/-! ## Store lemmas -/

/-- With pairwise-distinct ids, the row lookup by id finds exactly the
member row carrying that id. -/
theorem find?_id_eq_some {rows : List User} {i : Int} {u : User}
    (hn : (rows.map User.id).Nodup) (hu : u ∈ rows) (hid : u.id = i) :
    rows.find? (fun v => v.id == i) = some u := by
  induction rows with
  | nil => cases hu
  | cons v t ih =>
    rw [List.map_cons, List.nodup_cons] at hn
    rcases List.mem_cons.mp hu with rfl | hmem
    · exact List.find?_cons_of_pos _ (by simp [hid])
    · have hvi : ¬(v.id == i) = true := by
        simp only [beq_iff_eq]
        intro hvi
        apply hn.1
        rw [hvi, ← hid]
        exact List.mem_map_of_mem _ hmem
      have hstep : List.find? (fun v => v.id == i) (v :: t) =
          List.find? (fun v => v.id == i) t := List.find?_cons_of_neg t hvi
      rw [hstep]
      exact ih hn.2 hmem

/-- With pairwise-distinct emails, the row owning the submitted email is the
target row itself, so the exclude-own-id conflict query finds nothing. -/
theorem find?_email_exceptId_eq_none {rows : List User} {e : String} {i : Int}
    {u : User} (hde : (rows.map User.email).Nodup) (hu : u ∈ rows)
    (hue : u.email = e) (hui : u.id = i) :
    rows.find? (fun v => v.email == e && v.id != i) = none := by
  rw [List.find?_eq_none]
  intro v hv
  simp only [Bool.and_eq_true, beq_iff_eq, bne_iff_ne, ne_eq, not_and, not_not]
  intro hve
  have hv_eq : v = u := List.inj_on_of_nodup_map hde hv hu (by rw [hve, hue])
  rw [hv_eq, hui]

/-- Rewriting the rows with a matching id to a fixed email `e` keeps emails
pairwise distinct, provided every row already carrying `e` has that id. -/
theorem nodup_update_emails {rows : List User} {i : Int} {e : String}
    (hids : (rows.map User.id).Nodup) (hem : (rows.map User.email).Nodup)
    (hcl : ∀ u ∈ rows, u.email = e → u.id = i) :
    (rows.map (fun u => if u.id == i then e else u.email)).Nodup := by
  induction rows with
  | nil => simp
  | cons v t ih =>
    rw [List.map_cons, List.nodup_cons] at hids hem
    rw [List.map_cons, List.nodup_cons]
    have hclt : ∀ u ∈ t, u.email = e → u.id = i :=
      fun u hu => hcl u (List.mem_cons_of_mem _ hu)
    refine ⟨?_, ih hids.2 hem.2 hclt⟩
    by_cases hv : v.id = i
    · rw [if_pos (by simpa using hv)]
      intro hmem
      rw [List.mem_map] at hmem
      obtain ⟨u, hu, hgu⟩ := hmem
      have hui : u.id ≠ i := by
        intro h
        apply hids.1
        rw [hv, ← h]
        exact List.mem_map_of_mem _ hu
      rw [if_neg (by simpa using hui)] at hgu
      exact hui (hclt u hu hgu)
    · rw [if_neg (by simpa using hv)]
      intro hmem
      rw [List.mem_map] at hmem
      obtain ⟨u, hu, hgu⟩ := hmem
      by_cases hui : u.id = i
      · rw [if_pos (by simpa using hui)] at hgu
        exact hv (hcl v (List.mem_cons_self v t) hgu.symm)
      · rw [if_neg (by simpa using hui)] at hgu
        exact hem.1 (hgu ▸ List.mem_map_of_mem User.email hu)

/-- `INSERT` preserves well-formedness: the sequence id is fresh. -/
theorem WF_insert {s : Store} {n e : String} (hwf : s.WF) :
    (insertUser s n e).1.WF := by
  obtain ⟨hb, hnd, hpos⟩ := hwf
  show (∀ u ∈ s.rows ++ [(⟨s.nextId, n, e⟩ : User)], 0 < u.id ∧ u.id < s.nextId + 1) ∧
    ((s.rows ++ [(⟨s.nextId, n, e⟩ : User)]).map User.id).Nodup ∧ 1 ≤ s.nextId + 1
  refine ⟨?_, ?_, by omega⟩
  · intro u hu
    rcases List.mem_append.mp hu with h | h
    · exact ⟨(hb u h).1, by have := (hb u h).2; omega⟩
    · rw [List.mem_singleton] at h
      subst h
      exact ⟨by show 0 < s.nextId; omega, by show s.nextId < s.nextId + 1; omega⟩
  · show ((s.rows ++ [(⟨s.nextId, n, e⟩ : User)]).map User.id).Nodup
    rw [List.map_append, List.nodup_append]
    refine ⟨hnd, List.nodup_singleton _, ?_⟩
    intro a ha ha'
    simp only [List.map_cons, List.map_nil, List.mem_singleton] at ha'
    rw [List.mem_map] at ha
    obtain ⟨u, hu, rfl⟩ := ha
    have := (hb u hu).2
    omega

/-- `INSERT` of an email no row carries preserves pairwise-distinct emails. -/
theorem distinctEmails_insert {s : Store} {n e : String}
    (hde : distinctEmails s) (he : ∀ v ∈ s.rows, v.email ≠ e) :
    distinctEmails (insertUser s n e).1 := by
  show ((s.rows ++ [(⟨s.nextId, n, e⟩ : User)]).map User.email).Nodup
  rw [List.map_append, List.nodup_append]
  refine ⟨hde, List.nodup_singleton _, ?_⟩
  intro a ha ha'
  simp only [List.map_cons, List.map_nil, List.mem_singleton] at ha'
  rw [List.mem_map] at ha
  obtain ⟨u, hu, rfl⟩ := ha
  exact he u hu ha'

/-- The `UPDATE` statement rewrites only `name`/`email`, so ids (hence
well-formedness) are untouched. -/
theorem WF_execUpdate {s : Store} {i : Int} {n e : String} (hwf : s.WF) :
    Store.WF ⟨s.rows.map (fun u => if u.id == i then ⟨u.id, n, e⟩ else u), s.nextId⟩ := by
  obtain ⟨hb, hnd, hpos⟩ := hwf
  have hids : (s.rows.map (fun u => if u.id == i then (⟨u.id, n, e⟩ : User) else u)).map
      User.id = s.rows.map User.id := by
    rw [List.map_map]
    apply List.map_congr_left
    intro u _
    by_cases h : u.id = i <;> simp [h]
  show (∀ u ∈ s.rows.map (fun u => if u.id == i then (⟨u.id, n, e⟩ : User) else u),
      0 < u.id ∧ u.id < s.nextId) ∧ _ ∧ 1 ≤ s.nextId
  refine ⟨?_, by rw [hids]; exact hnd, hpos⟩
  intro u hu
  rw [List.mem_map] at hu
  obtain ⟨v, hv, rfl⟩ := hu
  have hvid : (if v.id == i then (⟨v.id, n, e⟩ : User) else v).id = v.id := by
    by_cases h : v.id = i <;> simp [h]
  rw [hvid]
  exact hb v hv

/-- `DELETE` keeps a sublist of the rows, preserving well-formedness. -/
theorem WF_execDelete {s : Store} {i : Int} (hwf : s.WF) :
    Store.WF ⟨s.rows.filter (fun u => u.id != i), s.nextId⟩ := by
  obtain ⟨hb, hnd, hpos⟩ := hwf
  refine ⟨fun u hu => hb u (List.mem_filter.mp hu).1, ?_, hpos⟩
  exact List.Nodup.sublist ((List.filter_sublist s.rows).map User.id) hnd

/-- `DELETE` preserves pairwise-distinct emails. -/
theorem distinctEmails_execDelete {s : Store} {i : Int} (hde : distinctEmails s) :
    distinctEmails ⟨s.rows.filter (fun u => u.id != i), s.nextId⟩ :=
  List.Nodup.sublist ((List.filter_sublist s.rows).map User.email) hde

/-! ## Concrete data used to instantiate the theorems -/

/-- A small well-formed store: two users with distinct names and emails. -/
def exStore : Store := ⟨[⟨1, "A", "a@b.co"⟩, ⟨2, "B", "b@b.co"⟩], 3⟩

/-! ## Claim C8 -/

/-- C8: a POST whose decoded payload has an empty name or an email not
matching the pattern is answered 400 "Invalid input: Name is required and
Email must be valid", uniformly in the store (no store access happens:
the store comes back unchanged whatever it was). -/
theorem create_invalid_input_400 (s : Store) (bid : Int) (n e : String)
    (h : n = "" ∨ isValidEmail e = false) :
    app (.create (some ⟨bid, n, e⟩)) s =
      .ok (httpError "Invalid input: Name is required and Email must be valid" 400) s := by
  simp only [app, jsonContentTypeMiddleware, route, createUser]
  rcases h with h | h <;> rw [if_pos (by simp [h])]

/-- Witness for C8 at a concrete invalid email and store. -/
theorem create_invalid_input_400_witness :
    app (.create (some ⟨0, "X", "bad"⟩)) exStore =
      .ok (httpError "Invalid input: Name is required and Email must be valid" 400) exStore :=
  create_invalid_input_400 exStore 0 "X" "bad" (Or.inr (by decide))

/-! ## Claim C9 -/

/-- C9: a GET /users/{id} for which no row matches the id — because the id
is not an integer, or no row carries it — never returns a response: the
handler hits `log.Fatal` (the "no rows" result is fatal, not a 404). -/
theorem getUser_missing_row_fatal (s : Store) (idStr : String)
    (h : ∀ i : Int, pgParseId idStr = some i → ∀ u ∈ s.rows, u.id ≠ i) :
    app (.showUser idStr) s = .fatal := by
  simp only [app, jsonContentTypeMiddleware, route, getUser]
  cases hq : queryUserById s idStr with
  | error err => rfl
  | ok u =>
    exfalso
    unfold queryUserById at hq
    split at hq
    next => exact Except.noConfusion hq
    next i hp =>
      split at hq
      next => exact Except.noConfusion hq
      next v hf =>
        have hui : v.id = i := by simpa using List.find?_some hf
        exact h i hp v (List.mem_of_find?_eq_some hf) hui

/-- Witness for C9: GET of an absent id on the concrete store is fatal. -/
theorem getUser_missing_row_fatal_witness : app (.showUser "9") exStore = .fatal :=
  getUser_missing_row_fatal exStore "9" (by decide)

/-! ## Claim C10 -/

/-- C10: in the PUT handler, EVERY store error on the fetch of the target
row's current name/email — not only "no rows" — yields the 404 "User not
found" response (never `log.Fatal`), whereas the email-uniqueness query in
the same handler hits `log.Fatal` on every error other than "no rows". -/
theorem updateUser_fetch_vs_conflict_errors (ct idStr : String) (u : User) (s : Store) :
    (∀ e : DbError, updateFetchStep ct idStr u s (.error e) =
        .ok (httpError "User not found" 404) s) ∧
    (∀ e : DbError, e ≠ .noRows → updateConflictStep ct idStr u s (.error e) = .fatal) := by
  constructor
  · intro e
    rfl
  · intro e he
    cases e with
    | noRows => exact absurd rfl he
    | invalidSyntax => rfl
    | connection => rfl

/-- Witness for C10 at a concrete non-"no rows" error. -/
theorem updateUser_fetch_vs_conflict_errors_witness :
    updateFetchStep "application/json" "1" ⟨0, "N", "n@b.co"⟩ exStore (.error .connection) =
      .ok (httpError "User not found" 404) exStore ∧
    updateConflictStep "application/json" "1" ⟨0, "N", "n@b.co"⟩ exStore
      (.error .connection) = .fatal :=
  ⟨(updateUser_fetch_vs_conflict_errors "application/json" "1" ⟨0, "N", "n@b.co"⟩ exStore).1
      .connection,
   (updateUser_fetch_vs_conflict_errors "application/json" "1" ⟨0, "N", "n@b.co"⟩ exStore).2
      .connection (by decide)⟩

/-! ## Claim C4 -/

/-- Counterexample to C4 as stated: a DELETE whose path id is not an
integer makes the delete statement fail, which is `log.Fatal` — the
handler terminates the process instead of responding 200. -/
theorem delete_nonIntegerId_fatal_cex : app (.remove "abc") exStore = .fatal := by decide

/-- C4 amended: for every DELETE whose path id parses as an integer —
whether or not a row with that id exists — the handler responds 200 with
the JSON string body "User deleted", and the store keeps exactly the rows
whose id differs. -/
theorem delete_integerId_200 (s : Store) (idStr : String) (i : Int)
    (hid : pgParseId idStr = some i) :
    app (.remove idStr) s =
      .ok (jsonWrite "application/json" 200 "\"User deleted\"")
        ⟨s.rows.filter (fun u => u.id != i), s.nextId⟩ := by
  simp only [app, jsonContentTypeMiddleware, route, deleteUser, execDelete, hid]

/-- Witness for C4 (amended) at a concrete id absent from the store. -/
theorem delete_integerId_200_witness :
    app (.remove "7") exStore =
      .ok (jsonWrite "application/json" 200 "\"User deleted\"")
        ⟨exStore.rows.filter (fun u => u.id != (7 : Int)), exStore.nextId⟩ :=
  delete_integerId_200 exStore "7" 7 (by decide)

/-- `find?` returns the unique element satisfying the predicate. -/
theorem find?_eq_some_of_unique {α : Type} {l : List α} {p : α → Bool} {u : α}
    (hu : u ∈ l) (hpu : p u = true) (huniq : ∀ v ∈ l, p v = true → v = u) :
    l.find? p = some u := by
  induction l with
  | nil => cases hu
  | cons v t ih =>
    by_cases hpv : p v = true
    · rw [List.find?_cons_of_pos t hpv, huniq v (List.mem_cons_self v t) hpv]
    · rw [List.find?_cons_of_neg t hpv]
      rcases List.mem_cons.mp hu with rfl | hm
      · exact absurd hpu hpv
      · exact ih hm (fun w hw hpw => huniq w (List.mem_cons_of_mem _ hw) hpw)

/-! ## Claim C3 -/

/-- C3: a PUT whose submitted name and email both equal the values stored
for the path id is answered 400 "No changes detected" (the store holds
pairwise-distinct emails, so the excluding-own-id email check passes, the
fetch finds the row, and the no-change comparison fires). -/
theorem update_noChanges_400 (s : Store) (idStr : String) (i bid : Int) (n e : String)
    (hwf : s.WF) (hde : distinctEmails s) (hid : pgParseId idStr = some i)
    (hrow : (⟨i, n, e⟩ : User) ∈ s.rows) (hn : n ≠ "") (he : e ≠ "") :
    app (.update idStr (some ⟨bid, n, e⟩)) s =
      .ok (httpError "No changes detected" 400) s := by
  obtain ⟨hb, hnd, hpos⟩ := hwf
  have hconf : s.rows.find? (fun u => u.email == e && u.id != i) = none :=
    find?_email_exceptId_eq_none hde hrow rfl rfl
  have hfetch : s.rows.find? (fun u => u.id == i) = some ⟨i, n, e⟩ :=
    find?_id_eq_some hnd hrow rfl
  simp [app, jsonContentTypeMiddleware, route, updateUser, updateConflictStep,
    updateFetchStep, queryUserByEmailExceptId, queryNameEmailById,
    hid, hconf, hfetch, hn, he]

/-- Witness for C3: resubmitting the stored name/email of user 1. -/
theorem update_noChanges_400_witness :
    app (.update "1" (some ⟨5, "A", "a@b.co"⟩)) exStore =
      .ok (httpError "No changes detected" 400) exStore :=
  update_noChanges_400 exStore "1" 1 5 "A" "a@b.co" (by decide) (by decide)
    (by decide) (by decide) (by decide) (by decide)

/-! ## Claim C7 -/

/-- Counterexample to C7 as stated: a POST whose name equals an existing
row's name but whose email fails validation is answered 400 at the
validation step, not 409 — the uniqueness check is never reached. -/
theorem create_conflicting_but_invalid_cex :
    (∃ v ∈ exStore.rows, v.name = "A") ∧
    app (.create (some ⟨0, "A", "bad"⟩)) exStore =
      .ok (httpError "Invalid input: Name is required and Email must be valid" 400)
        exStore := by
  exact ⟨⟨⟨1, "A", "a@b.co"⟩, by decide, rfl⟩, by decide⟩

/-- C7 amended: a POST that passes validation (non-empty name, pattern-valid
email) and whose name or email equals that of some existing row is answered
409 "User with the same name or email already exists", and the store is
unchanged (no insert). -/
theorem create_conflict_409 (s : Store) (bid : Int) (n e : String)
    (hwf : s.WF) (hn : n ≠ "") (he : isValidEmail e = true)
    (hconf : ∃ v ∈ s.rows, v.name = n ∨ v.email = e) :
    app (.create (some ⟨bid, n, e⟩)) s =
      .ok (httpError "User with the same name or email already exists" 409) s := by
  obtain ⟨hb, _, _⟩ := hwf
  have hsome : (s.rows.find? (fun u => u.name == n || u.email == e)).isSome := by
    rw [List.find?_isSome]
    obtain ⟨v, hv, hvp⟩ := hconf
    refine ⟨v, hv, ?_⟩
    rcases hvp with hvp | hvp <;> simp [hvp]
  obtain ⟨ex, hex⟩ := Option.isSome_iff_exists.mp hsome
  have hexm : ex ∈ s.rows := List.mem_of_find?_eq_some hex
  have hex0 : ex.id ≠ 0 := by
    have h1 : 0 < ex.id := (hb ex hexm).1
    omega
  simp [app, jsonContentTypeMiddleware, route, createUser, queryUserByNameOrEmail,
    hex, hn, he, hex0]

/-- Witness for C7 (amended): a valid POST reusing the name of user 1. -/
theorem create_conflict_409_witness :
    app (.create (some ⟨9, "A", "x@y.co"⟩)) exStore =
      .ok (httpError "User with the same name or email already exists" 409) exStore :=
  create_conflict_409 exStore 9 "A" "x@y.co" (by decide) (by decide) (by decide)
    ⟨⟨1, "A", "a@b.co"⟩, by decide, Or.inl rfl⟩

/-! ## Claim C6 -/

/-- Counterexample to C6 as stated: the non-empty validation (main.go
lines 149-151) runs BEFORE the email-conflict query, so a PUT with an
empty name and an email already stored under a different id (here a@b.co,
owned by id 1, sent to path id 2) is answered 400 "Name and Email are
required", never the claimed 409. -/
theorem update_conflicting_email_but_empty_name_cex :
    (⟨1, "A", "a@b.co"⟩ : User) ∈ exStore.rows ∧
    app (.update "2" (some ⟨0, "", "a@b.co"⟩)) exStore =
      .ok (httpError "Name and Email are required" 400) exStore :=
  ⟨by decide, by decide⟩

/-- C6 amended: a PUT that passes validation (non-empty submitted name and
email) whose email is already stored under a DIFFERENT id is answered 409
"Email already in use by another user"; a validation-passing PUT submitting
that same email to the row that owns it passes the conflict check (the
query excludes the target id) and yields a non-409 response.  A PUT with an
empty name or email is answered 400 at validation, before the conflict
query (see the counterexample). -/
theorem update_email_conflict_409_iff_other_owner (s : Store) (iStr jStr : String)
    (i j bid bid' : Int) (nj n n' e : String)
    (hwf : s.WF) (hde : distinctEmails s)
    (hrow : (⟨j, nj, e⟩ : User) ∈ s.rows)
    (hi : pgParseId iStr = some i) (hij : i ≠ j) (hj : pgParseId jStr = some j)
    (hn : n ≠ "") (hn' : n' ≠ "") (he : e ≠ "") :
    app (.update iStr (some ⟨bid, n, e⟩)) s =
        .ok (httpError "Email already in use by another user" 409) s ∧
    ∃ r s', app (.update jStr (some ⟨bid', n', e⟩)) s = .ok r s' ∧ r.status ≠ 409 := by
  obtain ⟨hb, hnd, hpos⟩ := hwf
  constructor
  · have hv : s.rows.find? (fun u => u.email == e && u.id != i) = some ⟨j, nj, e⟩ := by
      apply find?_eq_some_of_unique hrow
      · have hji : j ≠ i := fun h => hij h.symm
        simp [hji]
      · intro v hvm hp
        simp only [Bool.and_eq_true, beq_iff_eq, bne_iff_ne] at hp
        exact List.inj_on_of_nodup_map hde hvm hrow (by rw [hp.1])
    have hj0 : j ≠ 0 := by
      have h1 : 0 < (⟨j, nj, e⟩ : User).id := (hb _ hrow).1
      simp only at h1
      omega
    simp [app, jsonContentTypeMiddleware, route, updateUser, updateConflictStep,
      queryUserByEmailExceptId, hi, hv, hn, he, hj0]
  · have hconf : s.rows.find? (fun u => u.email == e && u.id != j) = none :=
      find?_email_exceptId_eq_none hde hrow rfl rfl
    have hfetch : s.rows.find? (fun u => u.id == j) = some ⟨j, nj, e⟩ :=
      find?_id_eq_some hnd hrow rfl
    by_cases hnn : nj = n'
    · refine ⟨httpError "No changes detected" 400, s, ?_, by decide⟩
      simp [app, jsonContentTypeMiddleware, route, updateUser, updateConflictStep,
        updateFetchStep, queryUserByEmailExceptId, queryNameEmailById,
        hj, hconf, hfetch, hn', he, hnn]
    · refine ⟨jsonWrite "application/json" 200 (encodeUser ⟨bid', n', e⟩),
        ⟨s.rows.map (fun u => if u.id == j then ⟨u.id, n', e⟩ else u), s.nextId⟩, ?_,
        by simp [jsonWrite]⟩
      simp [app, jsonContentTypeMiddleware, route, updateUser, updateConflictStep,
        updateFetchStep, queryUserByEmailExceptId, queryNameEmailById, execUpdate,
        hj, hconf, hfetch, hn', he, hnn]

/-- Witness for C6: user 1 owns a@b.co; PUT on id 2 with that email
conflicts, PUT on id 1 with it does not. -/
theorem update_email_conflict_409_iff_other_owner_witness :
    app (.update "2" (some ⟨0, "N", "a@b.co"⟩)) exStore =
        .ok (httpError "Email already in use by another user" 409) exStore ∧
    ∃ r s', app (.update "1" (some ⟨0, "A2", "a@b.co"⟩)) exStore = .ok r s' ∧
      r.status ≠ 409 :=
  update_email_conflict_409_iff_other_owner exStore "2" "1" 2 1 0 0 "A" "N" "A2" "a@b.co"
    (by decide) (by decide) (by decide) (by decide) (by decide) (by decide)
    (by decide) (by decide) (by decide)

/-! ## Claim C5 -/

/-- C5: a valid POST (non-empty name, pattern-valid email) with no existing
row sharing the name or email is answered 201 with the fresh positive
sequence id, and a GET of that id on the resulting store returns the same
name and email. -/
theorem create_then_get_roundtrip (s : Store) (bid : Int) (n e idStr : String)
    (hwf : s.WF) (hn : n ≠ "") (he : isValidEmail e = true)
    (hno : ∀ v ∈ s.rows, v.name ≠ n ∧ v.email ≠ e)
    (hid : pgParseId idStr = some s.nextId) :
    0 < s.nextId ∧
    app (.create (some ⟨bid, n, e⟩)) s =
      .ok (jsonWrite "application/json" 201 (encodeUser ⟨s.nextId, n, e⟩))
        (insertUser s n e).1 ∧
    app (.showUser idStr) (insertUser s n e).1 =
      .ok (jsonWrite "application/json" 200 (encodeUser ⟨s.nextId, n, e⟩))
        (insertUser s n e).1 := by
  obtain ⟨hb, hnd, hpos⟩ := hwf
  have hnone : s.rows.find? (fun u => u.name == n || u.email == e) = none := by
    rw [List.find?_eq_none]
    intro v hv
    simp only [Bool.or_eq_true, beq_iff_eq]
    push_neg
    exact hno v hv
  have hfind : (s.rows ++ [(⟨s.nextId, n, e⟩ : User)]).find?
      (fun u => u.id == s.nextId) = some ⟨s.nextId, n, e⟩ := by
    rw [List.find?_append]
    have h1 : s.rows.find? (fun u => u.id == s.nextId) = none := by
      rw [List.find?_eq_none]
      intro v hv
      simp only [beq_iff_eq]
      have h2 := (hb v hv).2
      omega
    rw [h1]
    simp
  refine ⟨by omega, ?_, ?_⟩
  · simp [app, jsonContentTypeMiddleware, route, createUser, queryUserByNameOrEmail,
      insertUser, hnone, hn, he]
  · simp [app, jsonContentTypeMiddleware, route, getUser, queryUserById, insertUser,
      hid, hfind]

/-- Witness for C5: creating a third user in the concrete store and reading
it back at its fresh id 3. -/
theorem create_then_get_roundtrip_witness :
    0 < exStore.nextId ∧
    app (.create (some ⟨0, "C", "c@b.co"⟩)) exStore =
      .ok (jsonWrite "application/json" 201 (encodeUser ⟨exStore.nextId, "C", "c@b.co"⟩))
        (insertUser exStore "C" "c@b.co").1 ∧
    app (.showUser "3") (insertUser exStore "C" "c@b.co").1 =
      .ok (jsonWrite "application/json" 200 (encodeUser ⟨exStore.nextId, "C", "c@b.co"⟩))
        (insertUser exStore "C" "c@b.co").1 :=
  create_then_get_roundtrip exStore 0 "C" "c@b.co" "3" (by decide) (by decide)
    (by decide) (by decide) (by decide)

/-! ## Claim C2 -/

/-- Counterexample to C2 as stated: the middleware does set
`application/json`, but `http.Error` overwrites the header, so an error
response (here a 400) goes out as `text/plain; charset=utf-8`. -/
theorem error_response_textPlain_cex :
    app (.create (some ⟨0, "", ""⟩)) exStore =
      .ok (httpError "Invalid input: Name is required and Email must be valid" 400)
        exStore ∧
    (httpError "Invalid input: Name is required and Email must be valid" 400).contentType =
      "text/plain; charset=utf-8" :=
  ⟨by decide, rfl⟩

/-- C2 amended: a response carries `Content-Type: application/json` exactly
when it is a success response (status 200 or 201, written through the JSON
encoder, keeping the header the middleware set); every error response is
written by `http.Error`, which resets the header to
`text/plain; charset=utf-8`. -/
theorem contentType_json_iff_success (req : Request) (s : Store) (resp : Response)
    (s' : Store) (h : app req s = .ok resp s') :
    resp.contentType = "application/json" ↔ resp.status = 200 ∨ resp.status = 201 := by
  cases req with
  | listUsers =>
    simp only [app, jsonContentTypeMiddleware, route, getUsers] at h
    cases h
    simp [jsonWrite]
  | showUser idStr =>
    simp only [app, jsonContentTypeMiddleware, route, getUser] at h
    split at h
    · exact HResult.noConfusion h
    · cases h
      simp [jsonWrite]
  | create body =>
    cases body with
    | none =>
      simp only [app, jsonContentTypeMiddleware, route, createUser] at h
      cases h
      simp [httpError]
    | some u =>
      simp only [app, jsonContentTypeMiddleware, route, createUser, insertUser] at h
      repeat' split at h
      all_goals first
      | exact HResult.noConfusion h
      | (cases h; simp [jsonWrite, httpError])
  | update idStr body =>
    cases body with
    | none =>
      simp only [app, jsonContentTypeMiddleware, route, updateUser] at h
      cases h
      simp [httpError]
    | some u =>
      simp only [app, jsonContentTypeMiddleware, route, updateUser] at h
      rw [updateConflictStep.eq_def] at h
      simp only [updateFetchStep.eq_def] at h
      repeat' split at h
      all_goals first
      | exact HResult.noConfusion h
      | (cases h; simp [jsonWrite, httpError])
  | remove idStr =>
    simp only [app, jsonContentTypeMiddleware, route, deleteUser] at h
    split at h
    · exact HResult.noConfusion h
    · cases h
      simp [jsonWrite]

/-- Witness for C2 (amended) at a concrete successful request. -/
theorem contentType_json_iff_success_witness :
    (jsonWrite "application/json" 200 (encodeUsers exStore.rows)).contentType =
        "application/json" ↔
      (jsonWrite "application/json" 200 (encodeUsers exStore.rows)).status = 200 ∨
        (jsonWrite "application/json" 200 (encodeUsers exStore.rows)).status = 201 :=
  contentType_json_iff_success .listUsers exStore
    (jsonWrite "application/json" 200 (encodeUsers exStore.rows)) exStore rfl

/-! ## Claim C1 -/

/-- A "no rows" answer from the create-conflict query means no row carries
the submitted email. -/
theorem queryUserByNameOrEmail_noRows_no_email {s : Store} {n e : String}
    (heq : queryUserByNameOrEmail s n e = .error .noRows) :
    ∀ v ∈ s.rows, v.email ≠ e := by
  unfold queryUserByNameOrEmail at heq
  split at heq
  next hf =>
    intro v hv
    have hnp := List.find?_eq_none.mp hf v hv
    simp only [Bool.or_eq_true, beq_iff_eq, not_or] at hnp
    exact hnp.2
  next => exact Except.noConfusion heq

/-- A row returned by the create-conflict query is a member of the store. -/
theorem queryUserByNameOrEmail_ok_mem {s : Store} {n e : String} {ex : User}
    (heq : queryUserByNameOrEmail s n e = .ok ex) : ex ∈ s.rows := by
  unfold queryUserByNameOrEmail at heq
  split at heq
  next => exact Except.noConfusion heq
  next u hf =>
    cases heq
    exact List.mem_of_find?_eq_some hf

/-- A row returned by the update-conflict query is a member of the store. -/
theorem queryUserByEmailExceptId_ok_mem {s : Store} {e idStr : String} {ex : User}
    (heq : queryUserByEmailExceptId s e idStr = .ok ex) : ex ∈ s.rows := by
  unfold queryUserByEmailExceptId at heq
  split at heq
  next => exact Except.noConfusion heq
  next i hp =>
    split at heq
    next => exact Except.noConfusion heq
    next u hf =>
      cases heq
      exact List.mem_of_find?_eq_some hf

/-- A "no rows" answer from the update-conflict query means every row
carrying the submitted email has the target id. -/
theorem queryUserByEmailExceptId_noRows_owner {s : Store} {e idStr : String} {i : Int}
    (hp : pgParseId idStr = some i)
    (heq : queryUserByEmailExceptId s e idStr = .error .noRows) :
    ∀ v ∈ s.rows, v.email = e → v.id = i := by
  unfold queryUserByEmailExceptId at heq
  split at heq
  next hp0 => simp [hp] at hp0
  next i1 hp1 =>
    have hi : i1 = i := by
      rw [hp1] at hp
      exact Option.some.inj hp
    subst hi
    split at heq
    next hf =>
      intro v hv hve
      have hnp := List.find?_eq_none.mp hf v hv
      simp only [Bool.and_eq_true, beq_iff_eq, bne_iff_ne, ne_eq, not_and, not_not] at hnp
      exact hnp hve
    next => exact Except.noConfusion heq

/-- Counterexample to C1 as stated: starting from a well-formed store with
pairwise-distinct names and emails, a successful PUT that reuses another
row's name goes through (the handler checks email uniqueness only), leaving
two rows named "B". -/
theorem update_breaks_distinctNames_cex :
    exStore.WF ∧ distinctNames exStore ∧ distinctEmails exStore ∧
    app (.update "1" (some ⟨0, "B", "a@b.co"⟩)) exStore =
      .ok (jsonWrite "application/json" 200 (encodeUser ⟨0, "B", "a@b.co"⟩))
        ⟨[⟨1, "B", "a@b.co"⟩, ⟨2, "B", "b@b.co"⟩], 3⟩ ∧
    ¬distinctNames ⟨[⟨1, "B", "a@b.co"⟩, ⟨2, "B", "b@b.co"⟩], 3⟩ :=
  ⟨by decide, by decide, by decide, by decide, by decide⟩

/-- C1 amended: starting from a well-formed store whose rows have
pairwise-distinct emails, every successfully answered request preserves
well-formedness and pairwise-distinct emails.  (Distinct names are NOT
preserved: the update handler checks only email uniqueness, see the
counterexample.) -/
theorem service_preserves_wf_distinctEmails (req : Request) (s : Store)
    (resp : Response) (s' : Store) (hwf : s.WF) (hde : distinctEmails s)
    (h : app req s = .ok resp s') : s'.WF ∧ distinctEmails s' := by
  cases req with
  | listUsers =>
    simp only [app, jsonContentTypeMiddleware, route, getUsers] at h
    cases h
    exact ⟨hwf, hde⟩
  | showUser idStr =>
    simp only [app, jsonContentTypeMiddleware, route, getUser] at h
    split at h
    · exact HResult.noConfusion h
    · cases h
      exact ⟨hwf, hde⟩
  | create body =>
    cases body with
    | none =>
      simp only [app, jsonContentTypeMiddleware, route, createUser] at h
      cases h
      exact ⟨hwf, hde⟩
    | some u =>
      simp only [app, jsonContentTypeMiddleware, route, createUser] at h
      split at h
      · cases h
        exact ⟨hwf, hde⟩
      · split at h
        next heq =>
          simp only [insertUser] at h
          cases h
          exact ⟨WF_insert hwf,
            distinctEmails_insert hde (queryUserByNameOrEmail_noRows_no_email heq)⟩
        next err hne heq =>
          cases h
          exact ⟨hwf, hde⟩
        next ex heq =>
          split at h
          · cases h
            exact ⟨hwf, hde⟩
          next hex0 =>
            exfalso
            have hmem := queryUserByNameOrEmail_ok_mem heq
            have hpos := (hwf.1 ex hmem).1
            simp only [bne_iff_ne, ne_eq, not_not] at hex0
            omega
  | update idStr body =>
    cases body with
    | none =>
      simp only [app, jsonContentTypeMiddleware, route, updateUser] at h
      cases h
      exact ⟨hwf, hde⟩
    | some u =>
      simp only [app, jsonContentTypeMiddleware, route, updateUser] at h
      split at h
      · cases h
        exact ⟨hwf, hde⟩
      · cases hqe : queryUserByEmailExceptId s u.email idStr with
        | error err =>
          rw [hqe] at h
          cases err with
          | noRows =>
            simp only [updateConflictStep] at h
            cases hqn : queryNameEmailById s idStr with
            | error err2 =>
              rw [hqn] at h
              simp only [updateFetchStep] at h
              cases h
              exact ⟨hwf, hde⟩
            | ok ne2 =>
              rw [hqn] at h
              simp only [updateFetchStep] at h
              split at h
              · cases h
                exact ⟨hwf, hde⟩
              · split at h
                next => exact HResult.noConfusion h
                next s2 hex =>
                  unfold execUpdate at hex
                  split at hex
                  next => exact Except.noConfusion hex
                  next i hp =>
                    cases hex
                    cases h
                    refine ⟨WF_execUpdate hwf, ?_⟩
                    have hcl := queryUserByEmailExceptId_noRows_owner hp hqe
                    show ((s.rows.map (fun v =>
                        if v.id == i then ⟨v.id, u.name, u.email⟩ else v)).map
                          User.email).Nodup
                    have hmm : (s.rows.map (fun v =>
                        if v.id == i then (⟨v.id, u.name, u.email⟩ : User) else v)).map
                          User.email =
                        s.rows.map (fun v => if v.id == i then u.email else v.email) := by
                      rw [List.map_map]
                      apply List.map_congr_left
                      intro v _
                      by_cases hvi : v.id = i <;> simp [hvi]
                    rw [hmm]
                    exact nodup_update_emails hwf.2.1 hde hcl
          | invalidSyntax => exact HResult.noConfusion h
          | connection => exact HResult.noConfusion h
        | ok ex =>
          rw [hqe] at h
          simp only [updateConflictStep] at h
          split at h
          · cases h
            exact ⟨hwf, hde⟩
          next hex0 =>
            exfalso
            have hmem := queryUserByEmailExceptId_ok_mem hqe
            have hpos := (hwf.1 ex hmem).1
            simp only [bne_iff_ne, ne_eq, not_not] at hex0
            omega
  | remove idStr =>
    simp only [app, jsonContentTypeMiddleware, route, deleteUser] at h
    cases hqd : execDelete s idStr with
    | error err =>
      rw [hqd] at h
      exact HResult.noConfusion h
    | ok s2 =>
      rw [hqd] at h
      cases h
      unfold execDelete at hqd
      split at hqd
      next => exact Except.noConfusion hqd
      next i hp =>
        cases hqd
        exact ⟨WF_execDelete hwf, distinctEmails_execDelete hde⟩

/-- Witness for C1 (amended): a successful create on the concrete store. -/
theorem service_preserves_wf_distinctEmails_witness :
    Store.WF (insertUser exStore "C" "c@b.co").1 ∧
      distinctEmails (insertUser exStore "C" "c@b.co").1 :=
  service_preserves_wf_distinctEmails (.create (some ⟨0, "C", "c@b.co"⟩)) exStore
    (jsonWrite "application/json" 201 (encodeUser ⟨3, "C", "c@b.co"⟩))
    (insertUser exStore "C" "c@b.co").1 (by decide) (by decide) (by decide)
